import Mathlib

/-!
Verification of the LANHub synchronization, encryption and chunked-transfer
core.  The definitions below are a shallow embedding of the TypeScript
source: the relay endpoint (`src/app/api/ws/route.ts`), the client context
(`src/contexts/AppContext.tsx`), the crypto helpers (`src/lib/crypto.ts`)
and the local storage layer (`src/lib/local-storage.ts`).
-/

namespace LANHub

/-- Byte strings are modelled as lists of naturals. -/
abbrev Bytes := List Nat

/-- JS `Array.from(new Set(l))`: deduplicate a list keeping the first
occurrence of every element, preserving insertion order. -/
def jsSetDedup (l : List String) : List String :=
  l.foldl (fun acc x => if x ∈ acc then acc else acc ++ [x]) []

/-! ## Messages (`src/types/index.ts` `Message`) -/

/-- The `Message` record of `src/types/index.ts`.  `seq` is the
relay-assigned sequence number (absent on locally originated, not yet
acknowledged messages); `enc`/`nonce` carry the encryption metadata. -/
structure Message where
  id : String
  senderId : String
  senderName : String
  content : String
  timestamp : Nat
  roomId : Option String
  mtype : String
  seq : Option Nat
  enc : Bool
  nonce : Option String
  alg : Option String
deriving DecidableEq, Repr

/-- Ids of a message list. -/
def msgIds (l : List Message) : List String := l.map Message.id

/-- One step of building the JS `Map` inside `mergeMessages`
(`AppContext.tsx` lines 87-91): `map.set(m.id, m)` keeps the
first-insertion position of an existing key and overwrites its value;
a new key is appended. -/
def msgUpsert (l : List Message) (m : Message) : List Message :=
  if l.any (fun x => x.id == m.id) then
    l.map (fun x => if x.id == m.id then m else x)
  else l ++ [m]

/-- The comparator of `mergeMessages` (`AppContext.tsx` lines 92-97) as a
boolean "may come first" relation: `seq ?? 0` ascending, ties broken by
`timestamp`. -/
def msgLe (a b : Message) : Bool :=
  decide (a.seq.getD 0 < b.seq.getD 0 ∨
    (a.seq.getD 0 = b.seq.getD 0 ∧ a.timestamp ≤ b.timestamp))

/-- `mergeMessages` (`AppContext.tsx` lines 87-99): deduplicate `prev`
then `incoming` by id through a JS `Map`, then sort by the comparator.
JS `Array.prototype.sort` is stable, as is `List.mergeSort`. -/
def mergeMessages (prev incoming : List Message) : List Message :=
  ((prev ++ incoming).foldl msgUpsert []).mergeSort msgLe

/-! ## Association lists modelling JS `Map` / sparse arrays -/

/-- JS `Map.set` / sparse array slot assignment: an existing key keeps its
position and gets the new value; a new key is appended. -/
def alSet {α β : Type} [DecidableEq α] : List (α × β) → α → β → List (α × β)
  | [], k, v => [(k, v)]
  | (a, b) :: t, k, v => if a = k then (k, v) :: t else (a, b) :: alSet t k v

/-- JS `Map.get` / array slot read. -/
def alGet {α β : Type} [DecidableEq α] : List (α × β) → α → Option β
  | [], _ => none
  | (a, b) :: t, k => if a = k then some b else alGet t k

/-- JS `Map.delete`. -/
def alRemove {α β : Type} [DecidableEq α] (l : List (α × β)) (k : α) :
    List (α × β) :=
  l.filter (fun p => decide (p.1 ≠ k))

/-! ## Crypto (`src/lib/crypto.ts`), WebCrypto primitives modelled
symbolically -/

/-- An abstract P-256 curve point, represented by its discrete logarithm
with respect to the base point. -/
structure ECPoint where
  dlog : Nat
deriving DecidableEq, Repr

/-- The public key matching an ECDH private scalar (`generateECDH` exports
the pair of JWKs produced by the platform key generator). -/
def pubOf (priv : Nat) : ECPoint := ⟨priv⟩

/-- `deriveSharedBits` (`crypto.ts`): ECDH key agreement between a private
scalar and a public point; the shared secret is the scalar multiple of the
point, modelled as multiplication of discrete logarithms so that agreement
is symmetric exactly as on the curve. -/
def deriveSharedBits (privateKey : Nat) (otherPublic : ECPoint) : Nat :=
  privateKey * otherPublic.dlog

/-- An AES-GCM key as produced by `deriveAesFromShared` (HKDF-SHA-256 over
the shared secret, a salt and an info label): the derived key is a
function of exactly these inputs. -/
structure AesKey where
  shared : Nat
  salt : Bytes
  info : String
deriving DecidableEq, Repr

/-- `deriveAesFromShared` (`crypto.ts`) with its default info label. -/
def deriveAesFromShared (shared : Nat) (salt : Bytes)
    (infoLabel : String := "lanhub-roomkey-v1") : AesKey :=
  ⟨shared, salt, infoLabel⟩

/-- A symbolic AES-GCM ciphertext: decryption recovers the plaintext under
the same key and the same nonce, and fails authentication otherwise. -/
structure Ciphertext where
  key : AesKey
  nonce : Bytes
  plaintext : Bytes
deriving DecidableEq, Repr

/-- `aesEncryptBytes` (`crypto.ts`) with the random nonce made an explicit
parameter. -/
def aesEncryptBytes (key : AesKey) (nonce : Bytes) (data : Bytes) :
    Ciphertext :=
  ⟨key, nonce, data⟩

/-- `aesDecryptBytes` (`crypto.ts`): authenticated AES-GCM decryption;
`none` models the exception thrown on an authentication failure. -/
def aesDecryptBytes (key : AesKey) (ct : Ciphertext) (nonce : Bytes) :
    Option Bytes :=
  if ct.key = key ∧ ct.nonce = nonce then some ct.plaintext else none

/-- A key-exchange envelope `{epk, saltB64, nonceB64, ctB64}`. -/
structure Envelope where
  epk : ECPoint
  salt : Bytes
  nonce : Bytes
  ct : Ciphertext
deriving DecidableEq, Repr

/-- `packRoomKeyForRecipient` (`crypto.ts`): generate an ephemeral pair,
agree with the recipient public key, derive a wrapping key with a fresh
salt, and encrypt the exported raw room key with a fresh nonce.  The
ephemeral private scalar, salt and nonce (all random in the source) are
explicit parameters. -/
def packRoomKeyForRecipient (roomKeyRaw : Bytes) (recipientPublic : ECPoint)
    (ephemPriv : Nat) (salt : Bytes) (nonce : Bytes) : Envelope :=
  let shared := deriveSharedBits ephemPriv recipientPublic
  let aes := deriveAesFromShared shared salt
  ⟨pubOf ephemPriv, salt, nonce, aesEncryptBytes aes nonce roomKeyRaw⟩

/-- `unpackRoomKeyFromSender` (`crypto.ts`): agree with the envelope's
ephemeral public key using the recipient private key, re-derive the
wrapping key from the envelope salt, and decrypt with the envelope
nonce. -/
def unpackRoomKeyFromSender (privateKey : Nat) (env : Envelope) :
    Option Bytes :=
  let shared := deriveSharedBits privateKey env.epk
  let aes := deriveAesFromShared shared env.salt
  aesDecryptBytes aes env.ct env.nonce

/-! ## Relay message store (`src/app/api/ws/route.ts`) -/

/-- Relay global message state (`messageHistory` and `messageSeq`). -/
structure RelayMsgState where
  messageHistory : List Message
  messageSeq : Nat
deriving DecidableEq, Repr

/-- The relay starts empty on every process start. -/
def relayMsgInit : RelayMsgState := ⟨[], 0⟩

/-- The `send_message` handler: assign the next sequence number and the
server timestamp, append, and trim the history to the most recent 200
messages (`messageHistory.slice(-200)`). -/
def relaySendMessage (st : RelayMsgState) (payload : Message) (now : Nat) :
    RelayMsgState × Message :=
  let seq2 := st.messageSeq + 1
  let msg := { payload with timestamp := now, seq := some seq2 }
  let h := st.messageHistory ++ [msg]
  let h2 := if 200 < h.length then h.drop (h.length - 200) else h
  (⟨h2, seq2⟩, msg)

/-- A whole run of `send_message` requests against a fresh relay; each
element carries the client payload and the server clock value. -/
def relaySendMany (st : RelayMsgState) (sends : List (Message × Nat)) :
    RelayMsgState :=
  sends.foldl (fun s x => (relaySendMessage s x.1 x.2).1) st

/-- The message part of the `heartbeat` response: stored messages with
`(seq ?? 0) > lastSeq`, and the current cursor `messageSeq`. -/
structure HeartbeatMsgResponse where
  newMessages : List Message
  lastSeq : Nat
deriving DecidableEq, Repr

/-- The `heartbeat` handler restricted to its message outputs. -/
def relayHeartbeatMessages (st : RelayMsgState) (lastSeq : Nat) :
    HeartbeatMsgResponse :=
  ⟨st.messageHistory.filter (fun m => decide (lastSeq < m.seq.getD 0)),
   st.messageSeq⟩

/-! ## Relay file transfers (`src/app/api/ws/route.ts`) -/

/-- A stored chunk: base64 ciphertext plus nonce. -/
structure RelayChunk where
  data : String
  nonce : String
deriving DecidableEq, Repr

/-- A relay-side file transfer record. -/
structure RelayTransfer where
  id : String
  senderId : String
  senderName : String
  fileName : String
  fileSize : Nat
  totalChunks : Nat
  recipients : Option (List String)
  createdAt : Nat
  completed : Bool
  chunks : List (Nat × RelayChunk)
deriving DecidableEq, Repr

/-- The `init_file_transfer` payload. -/
structure InitTransferPayload where
  id : String
  senderId : String
  senderName : String
  fileName : String
  fileSize : Nat
  totalChunks : Nat
  recipients : Option (List String)
deriving DecidableEq, Repr

/-- The `init_file_transfer` handler: create the record with no chunks and
`completed: false`. -/
def initFileTransfer (p : InitTransferPayload) (now : Nat) : RelayTransfer :=
  { id := p.id, senderId := p.senderId, senderName := p.senderName,
    fileName := p.fileName, fileSize := p.fileSize,
    totalChunks := p.totalChunks, recipients := p.recipients,
    createdAt := now, completed := false, chunks := [] }

/-- The `upload_chunk` payload; `totalChunks = 0` models a missing or zero
(falsy) field, which keeps the stored value. -/
structure UploadChunkPayload where
  index : Nat
  totalChunks : Nat
  data : String
  nonce : String
deriving DecidableEq, Repr

/-- The `upload_chunk` handler on one (already looked-up) transfer:
`t.totalChunks = payload.totalChunks || t.totalChunks`, store the chunk
under its index, and mark complete when `chunks.size >= totalChunks` —
the index itself is never validated against `[0, totalChunks)`. -/
def uploadChunk (t : RelayTransfer) (p : UploadChunkPayload) :
    RelayTransfer :=
  let tc := if p.totalChunks = 0 then t.totalChunks else p.totalChunks
  let chunks := alSet t.chunks p.index ⟨p.data, p.nonce⟩
  { t with totalChunks := tc, chunks := chunks,
           completed := if tc ≤ chunks.length then true else t.completed }

/-- A sequence of `upload_chunk` requests against one transfer. -/
def uploadMany (t : RelayTransfer) (ps : List UploadChunkPayload) :
    RelayTransfer :=
  ps.foldl uploadChunk t

/-! ## Rooms (`src/app/api/ws/route.ts` `create_room` / `update_room`) -/

/-- A relay chat room; `admins` is optional in the source record. -/
structure Room where
  id : String
  name : String
  participants : List String
  createdBy : String
  createdAt : Nat
  isPublic : Bool
  admins : Option (List String)
deriving DecidableEq, Repr

/-- The `create_room` payload. -/
structure CreateRoomPayload where
  id : String
  name : String
  createdBy : String
  isPublic : Bool
  participants : Option (List String)
  admins : Option (List String)
deriving DecidableEq, Repr

/-- The `create_room` handler on the room table; `none` models the 400
responses (missing required field, or duplicate id).  `admins` is copied
verbatim from the payload while only the listed participants and the
creator enter the participant set. -/
def createRoom (rooms : List (String × Room)) (p : CreateRoomPayload)
    (now : Nat) : Option (List (String × Room)) :=
  if p.id = "" ∨ p.name = "" ∨ p.createdBy = "" then none
  else if (alGet rooms p.id).isSome then none
  else some (alSet rooms p.id
    { id := p.id, name := p.name,
      participants := jsSetDedup ((p.participants.getD []) ++ [p.createdBy]),
      createdBy := p.createdBy, createdAt := now, isPublic := p.isPublic,
      admins := some (p.admins.getD []) })

/-- The `update_room` payload; each mutation field is optional. -/
structure UpdateRoomPayload where
  byUserId : String
  addParticipant : Option String
  removeParticipant : Option String
  addAdmin : Option String
  removeAdmin : Option String
  transferOwnerTo : Option String
deriving DecidableEq, Repr

/-- JS truthiness of an optional string field: present and nonempty. -/
def truthy (o : Option String) : Bool := decide (o.getD "" ≠ "")

/-- The `addParticipant` block of `update_room`. -/
def roomAddParticipant (p : UpdateRoomPayload) (r : Room) : Room :=
  if truthy p.addParticipant then
    { r with participants :=
        jsSetDedup (r.participants ++ [p.addParticipant.getD ""]) }
  else r

/-- The `removeParticipant` block of `update_room`: drop the user from
participants and admins, then re-add the owner if removed. -/
def roomRemoveParticipant (p : UpdateRoomPayload) (r : Room) : Room :=
  if truthy p.removeParticipant then
    let u := p.removeParticipant.getD ""
    let parts := r.participants.filter (fun x => decide (x ≠ u))
    let admins := match r.admins with
      | some l => some (l.filter (fun x => decide (x ≠ u)))
      | none => none
    { r with
        participants := if r.createdBy ∈ parts then parts
                        else parts ++ [r.createdBy],
        admins := admins }
  else r

/-- The `addAdmin` block of `update_room`: never applied to the owner;
the target is added to participants when missing. -/
def roomAddAdmin (p : UpdateRoomPayload) (r : Room) : Room :=
  if truthy p.addAdmin then
    let target := p.addAdmin.getD ""
    if target ≠ r.createdBy then
      { r with
          admins := some (jsSetDedup ((r.admins.getD []) ++ [target])),
          participants := if target ∈ r.participants then
              r.participants
            else r.participants ++ [target] }
    else r
  else r

/-- The `removeAdmin` block of `update_room`. -/
def roomRemoveAdmin (p : UpdateRoomPayload) (r : Room) : Room :=
  if truthy p.removeAdmin then
    { r with admins := some ((r.admins.getD []).filter
        (fun x => decide (x ≠ p.removeAdmin.getD ""))) }
  else r

/-- The `transferOwnerTo` block of `update_room`: requires the target to
be a participant; the acting user is granted admin. -/
def roomTransferOwner (p : UpdateRoomPayload) (r : Room) : Room :=
  if truthy p.transferOwnerTo then
    let target := p.transferOwnerTo.getD ""
    if target ∈ r.participants then
      { r with createdBy := target,
               admins := some (jsSetDedup ((r.admins.getD []) ++
                 [p.byUserId])) }
    else r
  else r

/-- The `update_room` handler acting on one (already looked-up) room; an
unauthorized request (403) leaves the room unchanged.  The five mutation
blocks run in source order on the same request. -/
def updateRoom (r0 : Room) (p : UpdateRoomPayload) : Room :=
  let isOwner := decide (r0.createdBy = p.byUserId)
  let isAdmin := isOwner || (match r0.admins with
    | some l => decide (p.byUserId ∈ l)
    | none => false)
  if !isAdmin then r0
  else roomTransferOwner p (roomRemoveAdmin p (roomAddAdmin p
    (roomRemoveParticipant p (roomAddParticipant p r0))))

/-- The invariant of claim C3: the owner is a participant and every room
admin is a participant. -/
def roomInv (r : Room) : Prop :=
  r.createdBy ∈ r.participants ∧ ∀ a ∈ r.admins.getD [], a ∈ r.participants

/-- Number of mutation fields a payload carries (JS-truthy fields). -/
def opCount (p : UpdateRoomPayload) : Nat :=
  (if truthy p.addParticipant then 1 else 0) +
  (if truthy p.removeParticipant then 1 else 0) +
  (if truthy p.addAdmin then 1 else 0) +
  (if truthy p.removeAdmin then 1 else 0) +
  (if truthy p.transferOwnerTo then 1 else 0)

/-! ## Client receive loop (`src/contexts/AppContext.tsx`) -/

/-- A receiver-side assembly record (one `receiversRef` entry): the chunk
count, the filled buffer slots, and the downloaded-index set. -/
structure Receiver where
  total : Nat
  buffers : List (Nat × Bytes)
  downloaded : List Nat
deriving DecidableEq, Repr

/-- A fresh assembly record (`new Array(total).fill(null)`, empty set). -/
def freshReceiver (total : Nat) : Receiver := ⟨total, [], []⟩

/-- Chunk indices one tick will fetch for one transfer: available chunks
not yet in the downloaded set, capped at 5. -/
def needIndices (rec : Receiver) (avail : List Nat) : List Nat :=
  (avail.filter (fun idx => !(decide (idx ∈ rec.downloaded)))).take 5

/-- Ingest one fetched-and-decrypted chunk: write the buffer slot and add
the index to the downloaded set. -/
def ingestChunk (rec : Receiver) (idx : Nat) (data : Bytes) : Receiver :=
  { rec with buffers := alSet rec.buffers idx data,
             downloaded := if decide (idx ∈ rec.downloaded) then
                 rec.downloaded
               else rec.downloaded ++ [idx] }

/-- The reassembly trigger `rec.downloaded.size === rec.total`. -/
def reassemblyTriggered (rec : Receiver) : Bool :=
  decide (rec.downloaded.length = rec.total)

/-- Reassembly: collect buffer slots `0, 1, ...` up to the first missing
one (the source loop breaks at the first `null` slot). -/
def assembleParts (rec : Receiver) : List Bytes :=
  (((List.range rec.total).map (fun i => alGet rec.buffers i)).takeWhile
    Option.isSome).filterMap id

/-- The assembled artifact: concatenation of the collected parts. -/
def assembleBytes (rec : Receiver) : Bytes := (assembleParts rec).flatten

/-- One tick's chunk-fetch loop for a single transfer, restricted to the
assembly record; `fetch idx = none` models a failed download or a missing
room key (the chunk is skipped and retried on a later tick). -/
def tickFetchChunks (rec : Receiver) (avail : List Nat)
    (fetch : Nat → Option Bytes) : Receiver :=
  (needIndices rec avail).foldl (fun r idx =>
    match fetch idx with
    | none => r
    | some d => ingestChunk r idx d) rec

/-- The client `FileTransfer` record (`src/types/index.ts`); the object
URL of the assembled blob is modelled by the assembled bytes. -/
structure ClientTransfer where
  id : String
  fileName : String
  fileSize : Nat
  senderId : String
  senderName : String
  receiverId : Option String
  progress : Nat
  status : String
  timestamp : Nat
  totalChunks : Option Nat
  downloadUrl : Option Bytes
deriving DecidableEq, Repr

/-- A transfer announcement as served by `list_file_transfers`. -/
structure Announcement where
  id : String
  senderId : String
  senderName : String
  fileName : String
  fileSize : Nat
  totalChunks : Nat
  availableChunks : List Nat
deriving DecidableEq, Repr

/-- `storage.addFileTransfer`: insert, or merge over an existing record
with the same id (a full record merge replaces every field). -/
def storageAddFileTransfer (l : List ClientTransfer) (t : ClientTransfer) :
    List ClientTransfer :=
  if l.any (fun x => decide (x.id = t.id)) then
    l.map (fun x => if x.id = t.id then t else x)
  else l ++ [t]

/-- `storage.updateFileTransfer`: apply a field update to the record with
the given id, if present. -/
def storageUpdateFT (l : List ClientTransfer) (tid : String)
    (f : ClientTransfer → ClientTransfer) : List ClientTransfer :=
  l.map (fun x => if x.id = tid then f x else x)

/-- `storage.addDismissedTransfer`: append the id unless present. -/
def addDismissed (l : List String) (tid : String) : List String :=
  if tid ∈ l then l else l ++ [tid]

/-- Receiver-side client state touched by the transfer-receive loop: the
current user, the persisted dismissed set, the persisted transfer list,
and the in-memory assembly buffers (`receiversRef`). -/
structure ReceiveState where
  currentUserId : String
  dismissed : List String
  fileTransfers : List ClientTransfer
  receivers : List (String × Receiver)
deriving DecidableEq, Repr

/-- Progress/status update written after each ingested chunk. -/
def setProgressStatus (prog : Nat) (t : ClientTransfer) : ClientTransfer :=
  { t with progress := prog,
           status := if 100 ≤ prog then "completed" else "transferring" }

/-- One iteration of the per-transfer chunk loop: fetch a chunk, ingest
it, write progress, and on completion store the assembled artifact. -/
def chunkStep (tid : String) (fetch : Nat → Option Bytes)
    (cur : Receiver × List ClientTransfer) (idx : Nat) :
    Receiver × List ClientTransfer :=
  match fetch idx with
  | none => cur
  | some d =>
    let rec2 := ingestChunk cur.1 idx d
    let prog := rec2.downloaded.length * 100 / rec2.total
    let fts1 := storageUpdateFT cur.2 tid (setProgressStatus prog)
    if rec2.downloaded.length = rec2.total then
      (rec2, storageUpdateFT fts1 tid (fun t =>
        { t with downloadUrl := some (assembleBytes rec2),
                 status := "completed", progress := 100 }))
    else (rec2, fts1)

/-- First phase of processing one announcement: when the transfer is not
yet known, create the assembly record and the local transfer record. -/
def tickAddRecord (now : Nat) (st : ReceiveState) (t : Announcement) :
    ReceiveState :=
  if (alGet st.receivers t.id).isSome then st
  else
    let tr : ClientTransfer :=
      { id := t.id, fileName := t.fileName, fileSize := t.fileSize,
        senderId := t.senderId, senderName := t.senderName,
        receiverId := some st.currentUserId, progress := 0,
        status := "transferring", timestamp := now,
        totalChunks := some t.totalChunks, downloadUrl := none }
    { st with
        receivers := alSet st.receivers t.id (freshReceiver t.totalChunks),
        fileTransfers := storageAddFileTransfer st.fileTransfers tr }

/-- Second phase: fetch up to 5 needed chunks of the transfer and write
the updated assembly record and transfer list back. -/
def tickFetchPhase (fetch : String → Nat → Option Bytes)
    (st1 : ReceiveState) (t : Announcement) : ReceiveState :=
  match alGet st1.receivers t.id with
  | none => st1
  | some rec =>
    let res := (needIndices rec t.availableChunks).foldl
      (chunkStep t.id (fetch t.id)) (rec, st1.fileTransfers)
    { st1 with receivers := alSet st1.receivers t.id res.1,
               fileTransfers := res.2 }

/-- Processing of one announcement inside the receive tick: skip when
dismissed or self-sent; otherwise create the records when unknown, then
fetch needed chunks. -/
def tickAnnouncement (fetch : String → Nat → Option Bytes) (now : Nat)
    (st : ReceiveState) (t : Announcement) : ReceiveState :=
  if decide (t.id ∈ st.dismissed) then st
  else if decide (t.senderId = st.currentUserId) then st
  else tickFetchPhase fetch (tickAddRecord now st t) t

/-- One whole receive tick over the announcement list. -/
def tickTransfers (fetch : String → Nat → Option Bytes) (now : Nat)
    (st : ReceiveState) (anns : List Announcement) : ReceiveState :=
  anns.foldl (tickAnnouncement fetch now) st

/-- `removeFileTransfer` (`AppContext.tsx`): drop the assembly record,
record the id in the persisted dismissed set when the current user is the
receiver, and remove the local transfer record. -/
def removeFileTransfer (st : ReceiveState) (tid : String) : ReceiveState :=
  let t := st.fileTransfers.find? (fun x => decide (x.id = tid))
  let dismissed := match t with
    | some tr => if tr.receiverId = some st.currentUserId then
        addDismissed st.dismissed tid
      else st.dismissed
    | none => st.dismissed
  { st with receivers := alRemove st.receivers tid,
            dismissed := dismissed,
            fileTransfers := st.fileTransfers.filter
              (fun x => !(decide (x.id = tid))) }

/-! ## Client message send path (`AppContext.tsx` `sendMessage`) -/

/-- The client `User` record. -/
structure User where
  id : String
  username : String
  displayName : String
  isAdmin : Bool
  status : String
  lastSeen : Nat
deriving DecidableEq, Repr

/-- Client state touched by `sendMessage`: the logged-in user, the
in-memory message list, the persisted message list, the room snapshot and
the active room key. -/
structure ClientState where
  currentUser : Option User
  messages : List Message
  storedMessages : List Message
  chatRooms : List Room
  roomKey : Option AesKey
deriving DecidableEq, Repr

/-- `storage.addMessage`: append unless a record with the id exists. -/
def storageAddMessage (l : List Message) (m : Message) : List Message :=
  if l.any (fun x => decide (x.id = m.id)) then l else l ++ [m]

/-- UTF-8 bytes of a string (for `aesEncryptString`). -/
def strBytes (s : String) : Bytes := s.data.map Char.toNat

/-- Deterministic stand-in for the base64 rendering of a ciphertext. -/
def ctEncode (c : Ciphertext) : String := toString (repr c)

/-- Deterministic stand-in for the base64 rendering of raw bytes. -/
def bytesEncode (b : Bytes) : String := toString (repr b)

/-- `sendMessage` (`AppContext.tsx`): permission gates, optional
encryption under the active room key, local plaintext store, and the
request sent to the relay (`none` when the call returns early).  The
message id, clock value and random nonce are explicit parameters. -/
def sendMessage (st : ClientState) (content : String)
    (roomId : Option String) (idv : String) (now : Nat) (nonce : Bytes) :
    ClientState × Option Message :=
  match st.currentUser with
  | none => (st, none)
  | some cu =>
    if !(truthy roomId) && !cu.isAdmin then (st, none)
    else
      let ok := if truthy roomId then
          match st.chatRooms.find? (fun r => decide (r.id = roomId.getD "")) with
          | none => false
          | some room => room.isPublic || decide (cu.id ∈ room.participants)
        else true
      if !ok then (st, none)
      else
        let toSend : Message :=
          match st.roomKey with
          | some k =>
            { id := idv, senderId := cu.id, senderName := cu.displayName,
              content := ctEncode (aesEncryptBytes k nonce (strBytes content)),
              timestamp := now, roomId := roomId, mtype := "text",
              seq := none, enc := true, nonce := some (bytesEncode nonce),
              alg := some "aes-256-gcm" }
          | none =>
            { id := idv, senderId := cu.id, senderName := cu.displayName,
              content := content, timestamp := now, roomId := roomId,
              mtype := "text", seq := none, enc := false, nonce := none,
              alg := none }
        let localMessage := { toSend with content := content }
        ({ st with
            storedMessages := storageAddMessage st.storedMessages localMessage,
            messages := mergeMessages st.messages [localMessage] },
          some toSend)

/-! ## Concrete instances used by witnesses and counterexamples -/

/-- A one-chunk transfer initiation. -/
def sampleInit1 : InitTransferPayload :=
  ⟨"t1", "alice", "Alice", "f.bin", 10, 1, none⟩

/-- An upload carrying the out-of-range index 5 for a 1-chunk transfer. -/
def sampleUpload5 : UploadChunkPayload := ⟨5, 1, "ct", "nn"⟩

/-- An upload carrying the in-range index 0 for a 1-chunk transfer. -/
def sampleUpload0 : UploadChunkPayload := ⟨0, 1, "ct", "nn"⟩

/-- A sample plain message with a given id, sequence and timestamp. -/
def sampleMsg (i : String) (s : Option Nat) (ts : Nat) : Message :=
  ⟨i, "u", "U", "hi", ts, none, "text", s, false, none, none⟩

/-- A sample room owned by "o" with room admin "a". -/
def sampleRoom : Room := ⟨"r1", "room", ["o", "a"], "o", 0, false, some ["a"]⟩

/-- A sample single-operation payload: admin "a" grants admin to "b". -/
def sampleUpd : UpdateRoomPayload := ⟨"a", none, none, some "b", none, none⟩

/-- A sample logged-in non-admin user. -/
def sampleUser : User := ⟨"u1", "user", "User", false, "online", 0⟩

/-- A client state logged in as the non-admin `sampleUser`. -/
def sampleClientState : ClientState := ⟨some sampleUser, [], [], [], none⟩

/-- A receiver that has already downloaded chunk 0 of 2. -/
def sampleReceiver : Receiver := ⟨2, [(0, [7])], [0]⟩

/-- A completed inbound transfer record of user "bob". -/
def sampleCT : ClientTransfer :=
  ⟨"t1", "f.bin", 10, "alice", "Alice", some "bob", 100, "completed", 0,
   some 1, none⟩

/-- A receive state of "bob" holding the completed inbound `sampleCT`. -/
def sampleRecvState : ReceiveState := ⟨"bob", [], [sampleCT], []⟩

/-- A relay announcement that still lists the transfer "t1". -/
def sampleAnn : Announcement := ⟨"t1", "alice", "Alice", "f.bin", 10, 1, [0]⟩

/-- The create payload of claim C10: admin "alice" is not listed as a
participant. -/
def c10Payload : CreateRoomPayload :=
  ⟨"r1", "room", "owner", false, some [], some ["alice"]⟩

/-- The room that `create_room` builds from `c10Payload`. -/
def c10Room : Room :=
  ⟨"r1", "room", ["owner"], "owner", 0, false, some ["alice"]⟩

/-- A relay message state holding one stored message with sequence 2. -/
def sampleRelayState : RelayMsgState := ⟨[sampleMsg "a" (some 2) 0], 2⟩

lemma msgIds_msgUpsert (l : List Message) (m : Message) :
    msgIds (msgUpsert l m) =
      if m.id ∈ msgIds l then msgIds l else msgIds l ++ [m.id] := by
  have hiff : (l.any fun x => x.id == m.id) = true ↔ m.id ∈ msgIds l := by
    simp only [List.any_eq_true, beq_iff_eq, msgIds, List.mem_map]
  by_cases hm : m.id ∈ msgIds l
  · rw [if_pos hm]
    unfold msgUpsert
    rw [if_pos (hiff.mpr hm)]
    unfold msgIds
    rw [List.map_map]
    refine List.map_congr_left ?_
    intro x _
    by_cases hx : x.id = m.id
    · simp [Function.comp, hx]
    · simp [Function.comp, hx]
  · rw [if_neg hm]
    unfold msgUpsert
    rw [if_neg (fun hc => hm (hiff.mp hc))]
    simp [msgIds]

lemma msgIds_foldl_nodup (ms : List Message) (acc : List Message)
    (h : (msgIds acc).Nodup) : (msgIds (ms.foldl msgUpsert acc)).Nodup := by
  induction ms generalizing acc with
  | nil => exact h
  | cons m ms ih =>
    refine ih (msgUpsert acc m) ?_
    rw [msgIds_msgUpsert]
    by_cases hm : m.id ∈ msgIds acc
    · simpa [hm] using h
    · simp only [if_neg hm]
      exact List.Nodup.append h (List.nodup_singleton _)
        (by simpa using fun hc => hm hc)

lemma msgIds_foldl_mem (ms : List Message) (acc : List Message) (x : String) :
    x ∈ msgIds (ms.foldl msgUpsert acc) ↔ x ∈ msgIds acc ∨ x ∈ msgIds ms := by
  induction ms generalizing acc with
  | nil => simp [msgIds]
  | cons m ms ih =>
    rw [List.foldl_cons, ih]
    rw [msgIds_msgUpsert]
    by_cases hm : m.id ∈ msgIds acc
    · simp only [if_pos hm]
      constructor
      · rintro (h | h)
        · exact Or.inl h
        · exact Or.inr (by simp [msgIds] at h ⊢; exact Or.inr h)
      · rintro (h | h)
        · exact Or.inl h
        · simp only [msgIds, List.map_cons, List.mem_cons] at h
          rcases h with h | h
          · exact Or.inl (h ▸ hm)
          · exact Or.inr (by simpa [msgIds] using h)
    · simp only [if_neg hm, List.mem_append, List.mem_singleton]
      constructor
      · rintro ((h | h) | h)
        · exact Or.inl h
        · exact Or.inr (by simp [msgIds, h])
        · exact Or.inr (by simp [msgIds] at h ⊢; exact Or.inr h)
      · rintro (h | h)
        · exact Or.inl (Or.inl h)
        · simp only [msgIds, List.map_cons, List.mem_cons] at h
          rcases h with h | h
          · exact Or.inl (Or.inr h)
          · exact Or.inr (by simpa [msgIds] using h)

lemma msgLe_trans (a b c : Message) (hab : msgLe a b) (hbc : msgLe b c) :
    msgLe a c = true := by
  simp only [msgLe, decide_eq_true_eq] at hab hbc ⊢
  omega

lemma msgLe_total (a b : Message) : msgLe a b || msgLe b a := by
  simp only [msgLe, Bool.or_eq_true, decide_eq_true_eq]
  omega

/-- C4: mergeMessages deduplicates by message id (each id of either input
appears exactly once in the result) and orders the result by sequence
number ascending with ties broken by timestamp, so the merged result has
no duplicate ids and no sequence-number inversions. -/
theorem C4_mergeMessages_dedups_and_sorts (prev incoming : List Message) :
    (msgIds (mergeMessages prev incoming)).Nodup ∧
    (∀ x : String, x ∈ msgIds (mergeMessages prev incoming) ↔
      x ∈ msgIds prev ∨ x ∈ msgIds incoming) ∧
    (mergeMessages prev incoming).Pairwise (fun a b => msgLe a b = true) ∧
    (mergeMessages prev incoming).Pairwise
      (fun a b => a.seq.getD 0 ≤ b.seq.getD 0) := by
  have hperm : List.Perm (mergeMessages prev incoming)
      ((prev ++ incoming).foldl msgUpsert []) :=
    List.mergeSort_perm _ msgLe
  have hidsperm : List.Perm (msgIds (mergeMessages prev incoming))
      (msgIds ((prev ++ incoming).foldl msgUpsert [])) := hperm.map Message.id
  have hsorted : (mergeMessages prev incoming).Pairwise
      (fun a b => msgLe a b = true) :=
    List.sorted_mergeSort msgLe_trans msgLe_total _
  refine ⟨?_, ?_, hsorted, ?_⟩
  · exact hidsperm.nodup_iff.mpr
      (msgIds_foldl_nodup _ [] (by simp [msgIds]))
  · intro x
    rw [hidsperm.mem_iff, msgIds_foldl_mem]
    simp [msgIds]
  · refine hsorted.imp ?_
    intro a b h
    simp only [msgLe, decide_eq_true_eq] at h
    omega

/-! ## Association list lemmas -/

lemma alSet_keys {α β : Type} [DecidableEq α] (l : List (α × β)) (k : α)
    (v : β) :
    (alSet l k v).map Prod.fst =
      if k ∈ l.map Prod.fst then l.map Prod.fst
      else l.map Prod.fst ++ [k] := by
  induction l with
  | nil => simp [alSet]
  | cons a t ih =>
    obtain ⟨a1, a2⟩ := a
    by_cases h : a1 = k
    · subst h
      simp [alSet]
    · simp only [alSet, if_neg h, List.map_cons, ih]
      by_cases hk : k ∈ t.map Prod.fst
      · simp [hk, Ne.symm h]
      · simp [hk, Ne.symm h]

lemma alGet_alSet_ne {α β : Type} [DecidableEq α] (l : List (α × β))
    (k k2 : α) (v : β) (h : k2 ≠ k) :
    alGet (alSet l k v) k2 = alGet l k2 := by
  induction l with
  | nil => simp [alSet, alGet, Ne.symm h]
  | cons a t ih =>
    obtain ⟨a1, a2⟩ := a
    by_cases ha : a1 = k
    · subst ha
      simp [alSet, alGet, Ne.symm h]
    · simp only [alSet, if_neg ha, alGet]
      by_cases hb : a1 = k2
      · simp [hb]
      · simp [hb, ih]

lemma jsSetDedup_mem_aux (l acc : List String) (x : String) :
    (x ∈ l.foldl (fun acc y => if y ∈ acc then acc else acc ++ [y]) acc) ↔
      x ∈ acc ∨ x ∈ l := by
  induction l generalizing acc with
  | nil => simp
  | cons y t ih =>
    simp only [List.foldl_cons]
    rw [ih, List.mem_cons]
    by_cases h : y ∈ acc
    · simp only [if_pos h]
      constructor
      · rintro (hx | hx)
        · exact Or.inl hx
        · exact Or.inr (Or.inr hx)
      · rintro (hx | hx | hx)
        · exact Or.inl hx
        · exact Or.inl (hx ▸ h)
        · exact Or.inr hx
    · simp only [if_neg h, List.mem_append, List.mem_singleton]
      constructor
      · rintro ((hx | hx) | hx)
        · exact Or.inl hx
        · exact Or.inr (Or.inl hx)
        · exact Or.inr (Or.inr hx)
      · rintro (hx | hx | hx)
        · exact Or.inl (Or.inl hx)
        · exact Or.inl (Or.inr hx)
        · exact Or.inr hx

lemma jsSetDedup_mem (l : List String) (x : String) :
    x ∈ jsSetDedup l ↔ x ∈ l := by
  unfold jsSetDedup
  rw [jsSetDedup_mem_aux]
  simp

/-! ## Claim C2: room-key wrap/unwrap round trip -/

/-- C2: unwrapping with the private identity key an envelope produced by
wrapping a room key K for the matching public key reproduces K
bit-for-bit, through ephemeral ECDH key agreement, HKDF with the envelope
salt and AES-GCM with the envelope nonce. -/
theorem C2_roomkey_wrap_unwrap_roundtrip (K : Bytes) (priv ephemPriv : Nat)
    (salt nonce : Bytes) :
    unpackRoomKeyFromSender priv
      (packRoomKeyForRecipient K (pubOf priv) ephemPriv salt nonce) =
      some K := by
  simp [unpackRoomKeyFromSender, packRoomKeyForRecipient, deriveSharedBits,
    pubOf, deriveAesFromShared, aesEncryptBytes, aesDecryptBytes,
    Nat.mul_comm]

/-! ## Claim C1: transfer completion -/

/-- C1 counterexample: on a transfer initialized with 1 chunk, uploading a
single chunk under the out-of-range index 5 marks the relay transfer
complete, although no index in [0, 1) has been received — refuting that
indices outside [0, N) never mark a transfer complete. -/
theorem C1_counterexample_out_of_range_completes :
    (uploadChunk (initFileTransfer sampleInit1 0) sampleUpload5).completed =
      true ∧
    ((uploadChunk (initFileTransfer sampleInit1 0)
      sampleUpload5).chunks.map Prod.fst) = [5] ∧
    (uploadChunk (initFileTransfer sampleInit1 0)
      sampleUpload5).totalChunks = 1 ∧
    ¬ (5 < 1) := by
  refine ⟨rfl, rfl, rfl, by omega⟩

lemma uploadChunk_chunks (t : RelayTransfer) (p : UploadChunkPayload) :
    (uploadChunk t p).chunks =
      alSet t.chunks p.index (⟨p.data, p.nonce⟩ : RelayChunk) := rfl

lemma uploadChunk_total (t : RelayTransfer) (p : UploadChunkPayload) :
    (uploadChunk t p).totalChunks =
      if p.totalChunks = 0 then t.totalChunks else p.totalChunks := rfl

lemma uploadChunk_done (t : RelayTransfer) (p : UploadChunkPayload) :
    (uploadChunk t p).completed =
      if (if p.totalChunks = 0 then t.totalChunks else p.totalChunks) ≤
          (alSet t.chunks p.index (⟨p.data, p.nonce⟩ : RelayChunk)).length
        then true else t.completed := rfl

lemma uploadChunk_inv (N : Nat) (t : RelayTransfer) (p : UploadChunkPayload)
    (hp : p.totalChunks = 0 ∨ p.totalChunks = N)
    (h1 : (t.chunks.map Prod.fst).Nodup) (h2 : t.totalChunks = N)
    (h3 : t.completed = decide (N ≤ t.chunks.length)) :
    ((uploadChunk t p).chunks.map Prod.fst).Nodup ∧
    (uploadChunk t p).totalChunks = N ∧
    (uploadChunk t p).completed =
      decide (N ≤ (uploadChunk t p).chunks.length) ∧
    ((uploadChunk t p).chunks.map Prod.fst).toFinset =
      insert p.index (t.chunks.map Prod.fst).toFinset := by
  have htc : (if p.totalChunks = 0 then t.totalChunks else p.totalChunks) =
      N := by
    rcases hp with hp | hp <;> simp [hp, h2]
  have hkeys := alSet_keys t.chunks p.index
    (⟨p.data, p.nonce⟩ : RelayChunk)
  have hlen : t.chunks.length = (t.chunks.map Prod.fst).length := by
    simp
  have hlen2 : (alSet t.chunks p.index
      (⟨p.data, p.nonce⟩ : RelayChunk)).length =
      ((alSet t.chunks p.index
        (⟨p.data, p.nonce⟩ : RelayChunk)).map Prod.fst).length := by
    simp
  rw [uploadChunk_chunks, uploadChunk_total, uploadChunk_done, htc]
  by_cases hmem : p.index ∈ t.chunks.map Prod.fst
  · have hkeq : (alSet t.chunks p.index
        (⟨p.data, p.nonce⟩ : RelayChunk)).map Prod.fst =
        t.chunks.map Prod.fst := by rw [hkeys, if_pos hmem]
    have hl : (alSet t.chunks p.index
        (⟨p.data, p.nonce⟩ : RelayChunk)).length = t.chunks.length := by
      rw [hlen2, hkeq, ← hlen]
    rw [hkeq, hl]
    refine ⟨h1, rfl, ?_, ?_⟩
    · by_cases hc : N ≤ t.chunks.length
      · simp [hc]
      · simp [hc, h3]
    · exact (Finset.insert_eq_self.mpr (List.mem_toFinset.mpr hmem)).symm
  · have hkeq : (alSet t.chunks p.index
        (⟨p.data, p.nonce⟩ : RelayChunk)).map Prod.fst =
        t.chunks.map Prod.fst ++ [p.index] := by rw [hkeys, if_neg hmem]
    have hl : (alSet t.chunks p.index
        (⟨p.data, p.nonce⟩ : RelayChunk)).length = t.chunks.length + 1 := by
      rw [hlen2, hkeq]
      simp [← hlen]
    rw [hkeq, hl]
    refine ⟨?_, rfl, ?_, ?_⟩
    · exact List.Nodup.append h1 (List.nodup_singleton _)
        (by simpa using fun hc => hmem hc)
    · by_cases hc : N ≤ t.chunks.length + 1
      · simp [hc]
      · have hc2 : ¬ N ≤ t.chunks.length := by omega
        simp [hc, hc2, h3]
    · ext x
      simp [or_comm]

lemma uploadMany_inv (N : Nat) (ps : List UploadChunkPayload)
    (t : RelayTransfer)
    (hps : ∀ p ∈ ps, p.totalChunks = 0 ∨ p.totalChunks = N)
    (h1 : (t.chunks.map Prod.fst).Nodup) (h2 : t.totalChunks = N)
    (h3 : t.completed = decide (N ≤ t.chunks.length)) :
    ((uploadMany t ps).chunks.map Prod.fst).Nodup ∧
    (uploadMany t ps).totalChunks = N ∧
    (uploadMany t ps).completed =
      decide (N ≤ (uploadMany t ps).chunks.length) ∧
    ((uploadMany t ps).chunks.map Prod.fst).toFinset =
      (t.chunks.map Prod.fst).toFinset ∪
        (ps.map UploadChunkPayload.index).toFinset := by
  induction ps generalizing t with
  | nil => simpa [uploadMany] using ⟨h1, h2, h3⟩
  | cons p ps ih =>
    have hp : p.totalChunks = 0 ∨ p.totalChunks = N :=
      hps p (List.mem_cons_self p ps)
    obtain ⟨g1, g2, g3, g4⟩ := uploadChunk_inv N t p hp h1 h2 h3
    have hps2 : ∀ q ∈ ps, q.totalChunks = 0 ∨ q.totalChunks = N :=
      fun q hq => hps q (List.mem_cons_of_mem p hq)
    obtain ⟨f1, f2, f3, f4⟩ := ih (uploadChunk t p) hps2 g1 g2 g3
    refine ⟨by simpa [uploadMany] using f1, by simpa [uploadMany] using f2,
      by simpa [uploadMany] using f3, ?_⟩
    have : (uploadMany t (p :: ps)) = uploadMany (uploadChunk t p) ps := by
      simp [uploadMany]
    rw [this, f4, g4]
    ext x
    simp [or_comm, or_assoc, or_left_comm]

lemma ingestMany_inv (l : List (Nat × Bytes)) (r : Receiver)
    (h1 : r.downloaded.Nodup) :
    (l.foldl (fun r x => ingestChunk r x.1 x.2) r).downloaded.Nodup ∧
    (l.foldl (fun r x => ingestChunk r x.1 x.2) r).downloaded.toFinset =
      r.downloaded.toFinset ∪ (l.map Prod.fst).toFinset ∧
    (l.foldl (fun r x => ingestChunk r x.1 x.2) r).total = r.total := by
  induction l generalizing r with
  | nil => simp [h1]
  | cons x l ih =>
    have hstep1 : (ingestChunk r x.1 x.2).downloaded.Nodup := by
      simp only [ingestChunk]
      by_cases hx : x.1 ∈ r.downloaded
      · simpa [hx] using h1
      · simp only [decide_eq_true_eq, if_neg hx]
        exact List.Nodup.append h1 (List.nodup_singleton _)
          (by simpa using fun hc => hx hc)
    obtain ⟨f1, f2, f3⟩ := ih (ingestChunk r x.1 x.2) hstep1
    have hdl : (ingestChunk r x.1 x.2).downloaded.toFinset =
        insert x.1 r.downloaded.toFinset := by
      simp only [ingestChunk]
      by_cases hx : x.1 ∈ r.downloaded
      · simp only [decide_eq_true_eq, if_pos hx]
        exact (Finset.insert_eq_self.mpr (List.mem_toFinset.mpr hx)).symm
      · simp only [decide_eq_true_eq, if_neg hx]
        ext y
        simp [or_comm]
    have htot : (ingestChunk r x.1 x.2).total = r.total := by
      simp [ingestChunk]
    refine ⟨f1, ?_, by rw [List.foldl_cons, f3, htot]⟩
    rw [List.foldl_cons, f2, hdl]
    ext y
    simp [or_comm, or_assoc, or_left_comm]

/-- C1 amended: the relay marks a transfer with chunk count N complete
exactly when the number of distinct received chunk indices reaches N,
and the receiver's reassembly trigger fires exactly when the number of
distinct downloaded chunk indices equals N — with no validation that the
indices lie in [0, N); when all indices are in [0, N) this coincides
with the original claim. -/
theorem C1_amended_completion_counts_distinct_indices
    (q : InitTransferPayload) (now N : Nat) (hq : q.totalChunks = N)
    (hN : 0 < N) (ps : List UploadChunkPayload)
    (hps : ∀ p ∈ ps, p.totalChunks = 0 ∨ p.totalChunks = N)
    (l : List (Nat × Bytes)) :
    ((uploadMany (initFileTransfer q now) ps).completed = true ↔
      N ≤ (ps.map UploadChunkPayload.index).toFinset.card) ∧
    (reassemblyTriggered
        (l.foldl (fun r x => ingestChunk r x.1 x.2) (freshReceiver N)) =
        true ↔
      (l.map Prod.fst).toFinset.card = N) := by
  constructor
  · have h0 : ((initFileTransfer q now).chunks.map Prod.fst).Nodup := by
      simp [initFileTransfer]
    have h2 : (initFileTransfer q now).totalChunks = N := by
      simp [initFileTransfer, hq]
    have h3 : (initFileTransfer q now).completed =
        decide (N ≤ (initFileTransfer q now).chunks.length) := by
      simp [initFileTransfer]
      omega
    obtain ⟨f1, _, f3, f4⟩ :=
      uploadMany_inv N ps (initFileTransfer q now) hps h0 h2 h3
    rw [f3]
    have hcard :
        (uploadMany (initFileTransfer q now) ps).chunks.length =
        (ps.map UploadChunkPayload.index).toFinset.card := by
      have hnl : (uploadMany (initFileTransfer q now)
          ps).chunks.length =
          ((uploadMany (initFileTransfer q now)
            ps).chunks.map Prod.fst).length := by simp
      rw [hnl, ← List.toFinset_card_of_nodup f1, f4]
      simp [initFileTransfer]
    rw [hcard]
    simp
  · obtain ⟨f1, f2, _⟩ := ingestMany_inv l (freshReceiver N)
      (by simp [freshReceiver])
    simp only [reassemblyTriggered, decide_eq_true_eq]
    rw [← List.toFinset_card_of_nodup f1, f2]
    have : (freshReceiver N).downloaded.toFinset = ∅ := by
      simp [freshReceiver]
    rw [this]
    simp only [Finset.empty_union]
    have htot : (l.foldl (fun r x => ingestChunk r x.1 x.2)
        (freshReceiver N)).total = N := by
      obtain ⟨_, _, f3⟩ := ingestMany_inv l (freshReceiver N)
        (by simp [freshReceiver])
      simpa [freshReceiver] using f3
    rw [htot]

/-- Witness for C1 amended, at a concrete one-chunk transfer. -/
theorem C1_amended_witness :
    sampleInit1.totalChunks = 1 ∧ 0 < 1 ∧
    (∀ p ∈ [sampleUpload0], p.totalChunks = 0 ∨ p.totalChunks = 1) ∧
    (((uploadMany (initFileTransfer sampleInit1 0)
        [sampleUpload0]).completed = true ↔
      1 ≤ ([sampleUpload0].map UploadChunkPayload.index).toFinset.card) ∧
    (reassemblyTriggered
        ([((0 : Nat), ([7] : Bytes))].foldl
          (fun r x => ingestChunk r x.1 x.2) (freshReceiver 1)) = true ↔
      (([((0 : Nat), ([7] : Bytes))].map Prod.fst).toFinset.card = 1))) := by
  refine ⟨rfl, by omega, ?_, ?_⟩
  · intro p hp
    simp only [List.mem_singleton] at hp
    subst hp
    right
    rfl
  · exact C1_amended_completion_counts_distinct_indices sampleInit1 0 1 rfl
      (by omega) [sampleUpload0]
      (by intro p hp
          simp only [List.mem_singleton] at hp
          subst hp
          right
          rfl)
      [((0 : Nat), ([7] : Bytes))]

/-! ## Claim C6: heartbeat cursor filter -/

/-- C6: when every stored message carries a sequence number, the
heartbeat response contains exactly the stored messages whose sequence
number is strictly greater than the request's `lastSeq` cursor. -/
theorem C6_heartbeat_returns_exactly_newer (st : RelayMsgState)
    (lastSeq : Nat) (hseq : ∀ m ∈ st.messageHistory, m.seq.isSome = true)
    (m : Message) :
    m ∈ (relayHeartbeatMessages st lastSeq).newMessages ↔
      m ∈ st.messageHistory ∧ ∃ s, m.seq = some s ∧ lastSeq < s := by
  simp only [relayHeartbeatMessages, List.mem_filter, decide_eq_true_eq]
  constructor
  · rintro ⟨hm, hlt⟩
    refine ⟨hm, ?_⟩
    obtain ⟨s, hs⟩ := Option.isSome_iff_exists.mp (hseq m hm)
    exact ⟨s, hs, by simpa [hs] using hlt⟩
  · rintro ⟨hm, s, hs, hlt⟩
    exact ⟨hm, by simpa [hs] using hlt⟩

/-- Witness for C6 on a one-message relay state and cursor 1. -/
theorem C6_heartbeat_witness :
    (∀ m ∈ sampleRelayState.messageHistory, m.seq.isSome = true) ∧
    (sampleMsg "a" (some 2) 0 ∈
        (relayHeartbeatMessages sampleRelayState 1).newMessages ↔
      sampleMsg "a" (some 2) 0 ∈ sampleRelayState.messageHistory ∧
        ∃ s, (sampleMsg "a" (some 2) 0).seq = some s ∧ 1 < s) := by
  refine ⟨?_, ?_⟩
  · intro m hm
    simp only [sampleRelayState, List.mem_singleton] at hm
    subst hm
    rfl
  · exact C6_heartbeat_returns_exactly_newer sampleRelayState 1
      (by intro m hm
          simp only [sampleRelayState, List.mem_singleton] at hm
          subst hm
          rfl)
      (sampleMsg "a" (some 2) 0)

/-! ## Claim C9: relay history cap -/

lemma relaySendMessage_len (st : RelayMsgState) (p : Message) (now : Nat)
    (h : st.messageHistory.length ≤ 200) :
    (relaySendMessage st p now).1.messageHistory.length ≤ 200 := by
  simp only [relaySendMessage]
  by_cases hc : 200 < (st.messageHistory ++
      [{ p with timestamp := now, seq := some (st.messageSeq + 1) }]).length
  · simp only [if_pos hc, List.length_drop]
    omega
  · simp only [if_neg hc]
    simp only [List.length_append, List.length_singleton] at hc ⊢
    omega

/-- C9: starting from a fresh relay, after any sequence of send_message
requests the stored history never holds more than 200 messages (the trim
keeps only the most recent 200), so the full-history responses are capped
at 200 messages. -/
theorem C9_history_never_exceeds_200 (sends : List (Message × Nat)) :
    (relaySendMany relayMsgInit sends).messageHistory.length ≤ 200 := by
  have aux : ∀ (ss : List (Message × Nat)) (st : RelayMsgState),
      st.messageHistory.length ≤ 200 →
      (relaySendMany st ss).messageHistory.length ≤ 200 := by
    intro ss
    induction ss with
    | nil => intro st h; simpa [relaySendMany] using h
    | cons x ss ih =>
      intro st h
      have h2 := relaySendMessage_len st x.1 x.2 h
      simpa [relaySendMany] using ih _ h2
  exact aux sends relayMsgInit (by simp [relayMsgInit])

/-! ## Claim C10: create_room can violate admin membership -/

/-- C10: the `create_room` handler accepts a payload whose admin list
names a user absent from the participant list, copying `payload.admins`
verbatim while only the listed participants and the creator become
participants — so the created room has an admin who is not a
participant. -/
theorem C10_create_room_admin_not_participant :
    createRoom [] c10Payload 0 = some [("r1", c10Room)] ∧
    "alice" ∈ c10Room.admins.getD [] ∧
    "alice" ∉ c10Room.participants ∧
    c10Room.createdBy ∈ c10Room.participants := by
  refine ⟨?_, ?_, ?_, ?_⟩
  · rfl
  · simp [c10Room]
  · simp [c10Room]
  · simp [c10Room]

/-! ## Claim C5: global-channel write gate -/

/-- C5: a logged-in peer whose identity admin flag is false calling send
on the global channel (no room id) is rejected before anything happens:
the client state (including both message lists) is unchanged and no relay
request is produced. -/
theorem C5_nonadmin_global_send_rejected (st : ClientState)
    (content : String) (idv : String) (now : Nat) (nonce : Bytes)
    (cu : User) (hcu : st.currentUser = some cu)
    (hadmin : cu.isAdmin = false) :
    sendMessage st content none idv now nonce = (st, none) := by
  simp [sendMessage, hcu, hadmin, truthy]

/-- Witness for C5 at the concrete non-admin client state. -/
theorem C5_witness :
    sampleClientState.currentUser = some sampleUser ∧
    sampleUser.isAdmin = false ∧
    sendMessage sampleClientState "hello" none "m1" 0 [] =
      (sampleClientState, none) :=
  ⟨rfl, rfl,
    C5_nonadmin_global_send_rejected sampleClientState "hello" "m1" 0 []
      sampleUser rfl rfl⟩

/-! ## Claim C7: re-fetch of a downloaded chunk is a no-op -/

lemma tickFold_buffers_get (ns : List Nat) (r : Receiver)
    (fetch : Nat → Option Bytes) (idx : Nat) (h : idx ∉ ns) :
    alGet ((ns.foldl (fun r i =>
      match fetch i with
      | none => r
      | some d => ingestChunk r i d) r).buffers) idx =
      alGet r.buffers idx := by
  induction ns generalizing r with
  | nil => rfl
  | cons n ns ih =>
    have hn : idx ≠ n := fun hc => h (hc ▸ List.mem_cons_self n ns)
    have hns : idx ∉ ns := fun hc => h (List.mem_cons_of_mem n hc)
    rw [List.foldl_cons, ih _ hns]
    cases hf : fetch n with
    | none => rfl
    | some d =>
      simp only [ingestChunk]
      exact alGet_alSet_ne r.buffers n idx d hn

/-- C7: for an in-progress inbound transfer, an index already recorded in
the per-transfer downloaded set is never fetched again by a receive tick:
it is excluded from the fetch batch, its reassembly-buffer slot is
unchanged, and when every announced chunk is already downloaded the whole
tick leaves the record untouched, so reassembling twice produces
byte-identical artifacts. -/
theorem C7_downloaded_chunk_refetch_noop (rec : Receiver)
    (avail : List Nat) (fetch : Nat → Option Bytes) (idx : Nat)
    (h : idx ∈ rec.downloaded) :
    idx ∉ needIndices rec avail ∧
    alGet (tickFetchChunks rec avail fetch).buffers idx =
      alGet rec.buffers idx ∧
    ((∀ j ∈ avail, j ∈ rec.downloaded) →
      tickFetchChunks rec avail fetch = rec ∧
      assembleBytes (tickFetchChunks rec avail fetch) =
        assembleBytes rec) := by
  have hnotin : idx ∉ needIndices rec avail := by
    intro hc
    have hf := List.mem_of_mem_take hc
    have := (List.mem_filter.mp hf).2
    simp only [Bool.not_eq_true', decide_eq_false_iff_not] at this
    exact this h
  refine ⟨hnotin, ?_, ?_⟩
  · exact tickFold_buffers_get (needIndices rec avail) rec fetch idx hnotin
  · intro hall
    have hneed : needIndices rec avail = [] := by
      unfold needIndices
      have : avail.filter
          (fun i => !(decide (i ∈ rec.downloaded))) = [] := by
        rw [List.filter_eq_nil_iff]
        intro a ha
        simp [hall a ha]
      rw [this]
      rfl
    constructor
    · unfold tickFetchChunks
      rw [hneed]
      rfl
    · unfold tickFetchChunks
      rw [hneed]
      rfl

/-- Witness for C7: chunk 0 of `sampleReceiver` is downloaded, and a tick
announcing `[0]` changes nothing. -/
theorem C7_witness :
    (0 ∈ sampleReceiver.downloaded) ∧
    (0 ∉ needIndices sampleReceiver [0] ∧
     alGet (tickFetchChunks sampleReceiver [0] (fun _ => none)).buffers 0 =
       alGet sampleReceiver.buffers 0 ∧
     ((∀ j ∈ [(0 : Nat)], j ∈ sampleReceiver.downloaded) →
       tickFetchChunks sampleReceiver [0] (fun _ => none) =
         sampleReceiver ∧
       assembleBytes (tickFetchChunks sampleReceiver [0]
         (fun _ => none)) = assembleBytes sampleReceiver)) := by
  refine ⟨?_, ?_⟩
  · simp [sampleReceiver]
  · exact C7_downloaded_chunk_refetch_noop sampleReceiver [0]
      (fun _ => none) 0 (by simp [sampleReceiver])

/-! ## Claim C8: a dismissed transfer is never re-added -/

lemma storageUpdateFT_ids (l : List ClientTransfer) (tid2 tid : String)
    (f : ClientTransfer → ClientTransfer) (hf : ∀ x, (f x).id = x.id)
    (h : ∀ ft ∈ l, ft.id ≠ tid) :
    ∀ ft ∈ storageUpdateFT l tid2 f, ft.id ≠ tid := by
  intro ft hft
  simp only [storageUpdateFT, List.mem_map] at hft
  obtain ⟨x, hx, hxe⟩ := hft
  subst hxe
  by_cases hc : x.id = tid2
  · rw [if_pos hc, hf]
    exact h x hx
  · rw [if_neg hc]
    exact h x hx

lemma storageAddFileTransfer_ids (l : List ClientTransfer)
    (t : ClientTransfer) (tid : String) (ht : t.id ≠ tid)
    (h : ∀ ft ∈ l, ft.id ≠ tid) :
    ∀ ft ∈ storageAddFileTransfer l t, ft.id ≠ tid := by
  intro ft hft
  unfold storageAddFileTransfer at hft
  by_cases hc : l.any (fun x => decide (x.id = t.id))
  · rw [if_pos hc] at hft
    simp only [List.mem_map] at hft
    obtain ⟨x, hx, hxe⟩ := hft
    subst hxe
    by_cases hd : x.id = t.id
    · rw [if_pos hd]
      exact ht
    · rw [if_neg hd]
      exact h x hx
  · rw [if_neg hc] at hft
    rcases List.mem_append.mp hft with hx | hx
    · exact h ft hx
    · rw [List.mem_singleton.mp hx]
      exact ht

lemma chunkStepFold_ids (ns : List Nat) (tid2 tid : String)
    (fetch : Nat → Option Bytes) (cur : Receiver × List ClientTransfer)
    (h : ∀ ft ∈ cur.2, ft.id ≠ tid) :
    ∀ ft ∈ (ns.foldl (chunkStep tid2 fetch) cur).2, ft.id ≠ tid := by
  induction ns generalizing cur with
  | nil => exact h
  | cons n ns ih =>
    rw [List.foldl_cons]
    refine ih (chunkStep tid2 fetch cur n) ?_
    unfold chunkStep
    cases hf : fetch n with
    | none => exact h
    | some d =>
      simp only
      by_cases hdone : (ingestChunk cur.1 n d).downloaded.length =
          (ingestChunk cur.1 n d).total
      · rw [if_pos hdone]
        refine storageUpdateFT_ids _ tid2 tid _ (fun x => rfl) ?_
        exact storageUpdateFT_ids _ tid2 tid _ (fun x => rfl) h
      · rw [if_neg hdone]
        exact storageUpdateFT_ids _ tid2 tid _ (fun x => rfl) h

lemma tickAddRecord_inv (now : Nat) (st : ReceiveState) (t : Announcement)
    (tid : String) (ht : t.id ≠ tid)
    (h : ∀ ft ∈ st.fileTransfers, ft.id ≠ tid) :
    (tickAddRecord now st t).dismissed = st.dismissed ∧
    ∀ ft ∈ (tickAddRecord now st t).fileTransfers, ft.id ≠ tid := by
  unfold tickAddRecord
  by_cases hc : (alGet st.receivers t.id).isSome
  · rw [if_pos hc]
    exact ⟨rfl, h⟩
  · rw [if_neg hc]
    exact ⟨rfl, storageAddFileTransfer_ids _ _ tid ht h⟩

lemma tickFetchPhase_inv (fetch : String → Nat → Option Bytes)
    (st1 : ReceiveState) (t : Announcement) (tid : String)
    (_ht : t.id ≠ tid)
    (h : ∀ ft ∈ st1.fileTransfers, ft.id ≠ tid) :
    (tickFetchPhase fetch st1 t).dismissed = st1.dismissed ∧
    ∀ ft ∈ (tickFetchPhase fetch st1 t).fileTransfers, ft.id ≠ tid := by
  unfold tickFetchPhase
  cases hg : alGet st1.receivers t.id with
  | none => exact ⟨rfl, h⟩
  | some rec =>
    refine ⟨rfl, ?_⟩
    exact chunkStepFold_ids _ t.id tid (fetch t.id)
      (rec, st1.fileTransfers) h

lemma tickAnnouncement_inv (fetch : String → Nat → Option Bytes)
    (now : Nat) (st : ReceiveState) (t : Announcement) (tid : String)
    (hd : tid ∈ st.dismissed)
    (h : ∀ ft ∈ st.fileTransfers, ft.id ≠ tid) :
    (tickAnnouncement fetch now st t).dismissed = st.dismissed ∧
    ∀ ft ∈ (tickAnnouncement fetch now st t).fileTransfers, ft.id ≠ tid := by
  unfold tickAnnouncement
  by_cases h1 : t.id ∈ st.dismissed
  · rw [if_pos (by simpa using h1)]
    exact ⟨rfl, h⟩
  · rw [if_neg (by simpa using h1)]
    by_cases h2 : t.senderId = st.currentUserId
    · rw [if_pos (by simpa using h2)]
      exact ⟨rfl, h⟩
    · rw [if_neg (by simpa using h2)]
      have ht : t.id ≠ tid := fun hc => h1 (hc ▸ hd)
      obtain ⟨g1, g2⟩ := tickAddRecord_inv now st t tid ht h
      obtain ⟨f1, f2⟩ := tickFetchPhase_inv fetch (tickAddRecord now st t)
        t tid ht g2
      exact ⟨f1.trans g1, f2⟩

lemma tickTransfers_inv (fetch : String → Nat → Option Bytes) (now : Nat)
    (anns : List Announcement) (st : ReceiveState) (tid : String)
    (hd : tid ∈ st.dismissed)
    (h : ∀ ft ∈ st.fileTransfers, ft.id ≠ tid) :
    tid ∈ (tickTransfers fetch now st anns).dismissed ∧
    ∀ ft ∈ (tickTransfers fetch now st anns).fileTransfers, ft.id ≠ tid := by
  induction anns generalizing st with
  | nil => exact ⟨hd, h⟩
  | cons a anns ih =>
    obtain ⟨g1, g2⟩ := tickAnnouncement_inv fetch now st a tid hd h
    have hd2 : tid ∈ (tickAnnouncement fetch now st a).dismissed := by
      rw [g1]; exact hd
    simpa [tickTransfers] using ih (tickAnnouncement fetch now st a) hd2 g2

lemma mem_addDismissed (l : List String) (tid : String) :
    tid ∈ addDismissed l tid := by
  unfold addDismissed
  by_cases h : tid ∈ l
  · rw [if_pos h]; exact h
  · rw [if_neg h]; simp

/-- C8: after the receiver dismisses an inbound transfer T through
`removeFileTransfer` (which records T in the persisted dismissed set),
every subsequent receive tick skips announcements for T: no transfer with
id T ever re-enters the local transfer list. -/
theorem C8_dismissed_transfer_never_readded (st : ReceiveState)
    (tid : String) (anns : List Announcement)
    (fetch : String → Nat → Option Bytes) (now : Nat)
    (tr : ClientTransfer)
    (hfind : st.fileTransfers.find? (fun x => decide (x.id = tid)) =
      some tr)
    (hrecv : tr.receiverId = some st.currentUserId) :
    tid ∈ (removeFileTransfer st tid).dismissed ∧
    ∀ ft ∈ (tickTransfers fetch now (removeFileTransfer st tid)
      anns).fileTransfers, ft.id ≠ tid := by
  have hdism : (removeFileTransfer st tid).dismissed =
      addDismissed st.dismissed tid := by
    unfold removeFileTransfer
    rw [hfind]
    simp [hrecv]
  have hd : tid ∈ (removeFileTransfer st tid).dismissed := by
    rw [hdism]
    exact mem_addDismissed _ _
  have hft : ∀ ft ∈ (removeFileTransfer st tid).fileTransfers,
      ft.id ≠ tid := by
    intro ft hft
    unfold removeFileTransfer at hft
    simp only [List.mem_filter, Bool.not_eq_true',
      decide_eq_false_iff_not] at hft
    exact hft.2
  exact ⟨hd, (tickTransfers_inv fetch now anns _ tid hd hft).2⟩

/-- Witness for C8: "bob" dismisses the completed inbound transfer "t1";
a tick still announcing "t1" does not re-add it. -/
theorem C8_witness :
    (sampleRecvState.fileTransfers.find?
        (fun x => decide (x.id = "t1")) = some sampleCT) ∧
    sampleCT.receiverId = some sampleRecvState.currentUserId ∧
    ("t1" ∈ (removeFileTransfer sampleRecvState "t1").dismissed ∧
     ∀ ft ∈ (tickTransfers (fun _ _ => none) 0
         (removeFileTransfer sampleRecvState "t1")
         [sampleAnn]).fileTransfers, ft.id ≠ "t1") := by
  refine ⟨rfl, rfl, ?_⟩
  exact C8_dismissed_transfer_never_readded sampleRecvState "t1"
    [sampleAnn] (fun _ _ => none) 0 sampleCT rfl rfl

/-! ## Claim C3: room invariants under update_room -/

lemma roomAddParticipant_inv (p : UpdateRoomPayload) (r : Room)
    (hr : roomInv r) : roomInv (roomAddParticipant p r) := by
  unfold roomAddParticipant
  by_cases h : truthy p.addParticipant = true
  · rw [if_pos h]
    refine ⟨?_, ?_⟩
    · exact (jsSetDedup_mem _ _).mpr (List.mem_append_left _ hr.1)
    · intro a ha
      exact (jsSetDedup_mem _ _).mpr (List.mem_append_left _ (hr.2 a ha))
  · rw [if_neg h]
    exact hr

lemma roomRemoveParticipant_inv (p : UpdateRoomPayload) (r : Room)
    (hr : roomInv r) : roomInv (roomRemoveParticipant p r) := by
  unfold roomRemoveParticipant
  by_cases h : truthy p.removeParticipant = true
  · rw [if_pos h]
    dsimp only [roomInv]
    constructor
    · by_cases hc : r.createdBy ∈ r.participants.filter
          (fun x => decide (x ≠ p.removeParticipant.getD ""))
      · rw [if_pos hc]
        exact hc
      · rw [if_neg hc]
        exact List.mem_append_right _ (List.mem_singleton_self _)
    · intro a ha
      have hmem : a ∈ r.admins.getD [] ∧
          a ≠ p.removeParticipant.getD "" := by
        cases hadm : r.admins with
        | none =>
          rw [hadm] at ha
          simp at ha
        | some l =>
          rw [hadm] at ha
          simp only [Option.getD_some] at ha
          have h2 := List.mem_filter.mp ha
          refine ⟨?_, by simpa using h2.2⟩
          simpa using h2.1
      have hpart : a ∈ r.participants.filter
          (fun x => decide (x ≠ p.removeParticipant.getD "")) := by
        rw [List.mem_filter]
        exact ⟨hr.2 a hmem.1, by simpa using hmem.2⟩
      by_cases hc : r.createdBy ∈ r.participants.filter
          (fun x => decide (x ≠ p.removeParticipant.getD ""))
      · rw [if_pos hc]
        exact hpart
      · rw [if_neg hc]
        exact List.mem_append_left _ hpart
  · rw [if_neg h]
    exact hr

lemma roomAddAdmin_inv (p : UpdateRoomPayload) (r : Room)
    (hr : roomInv r) : roomInv (roomAddAdmin p r) := by
  unfold roomAddAdmin
  by_cases h : truthy p.addAdmin = true
  · rw [if_pos h]
    dsimp only
    by_cases ht : p.addAdmin.getD "" ≠ r.createdBy
    · rw [if_pos ht]
      dsimp only [roomInv]
      have hsub : ∀ x ∈ r.participants,
          x ∈ (if p.addAdmin.getD "" ∈ r.participants then
            r.participants else r.participants ++ [p.addAdmin.getD ""]) := by
        intro x hx
        by_cases hm : p.addAdmin.getD "" ∈ r.participants
        · rw [if_pos hm]
          exact hx
        · rw [if_neg hm]
          exact List.mem_append_left _ hx
      refine ⟨hsub _ hr.1, ?_⟩
      intro a ha
      simp only [Option.getD_some] at ha
      rcases List.mem_append.mp ((jsSetDedup_mem _ _).mp ha) with hx | hx
      · exact hsub _ (hr.2 a hx)
      · rw [List.mem_singleton.mp hx]
        by_cases hm : p.addAdmin.getD "" ∈ r.participants
        · rw [if_pos hm]
          exact hm
        · rw [if_neg hm]
          exact List.mem_append_right _ (List.mem_singleton_self _)
    · rw [if_neg ht]
      exact hr
  · rw [if_neg h]
    exact hr

lemma roomRemoveAdmin_inv (p : UpdateRoomPayload) (r : Room)
    (hr : roomInv r) : roomInv (roomRemoveAdmin p r) := by
  unfold roomRemoveAdmin
  by_cases h : truthy p.removeAdmin = true
  · rw [if_pos h]
    refine ⟨hr.1, ?_⟩
    intro a ha
    simp only [Option.getD_some] at ha
    exact hr.2 a (List.mem_filter.mp ha).1
  · rw [if_neg h]
    exact hr

lemma roomTransferOwner_inv (p : UpdateRoomPayload) (r : Room)
    (hby : p.byUserId ∈ r.participants) (hr : roomInv r) :
    roomInv (roomTransferOwner p r) := by
  unfold roomTransferOwner
  by_cases h : truthy p.transferOwnerTo = true
  · rw [if_pos h]
    dsimp only
    by_cases ht : p.transferOwnerTo.getD "" ∈ r.participants
    · rw [if_pos ht]
      dsimp only [roomInv]
      refine ⟨ht, ?_⟩
      intro a ha
      simp only [Option.getD_some] at ha
      rcases List.mem_append.mp ((jsSetDedup_mem _ _).mp ha) with hx | hx
      · exact hr.2 a hx
      · rw [List.mem_singleton.mp hx]
        exact hby
    · rw [if_neg ht]
      exact hr
  · rw [if_neg h]
    exact hr

lemma updateRoom_auth_mem (r : Room) (p : UpdateRoomPayload)
    (h : (decide (r.createdBy = p.byUserId) || (match r.admins with
      | some l => decide (p.byUserId ∈ l)
      | none => false)) = true)
    (hr : roomInv r) : p.byUserId ∈ r.participants := by
  rw [Bool.or_eq_true] at h
  rcases h with hx | hx
  · exact (of_decide_eq_true hx) ▸ hr.1
  · cases hadm : r.admins with
    | none =>
      rw [hadm] at hx
      exact absurd hx (by simp)
    | some l =>
      rw [hadm] at hx
      refine hr.2 _ ?_
      rw [hadm]
      simpa using of_decide_eq_true hx

lemma onlyTransferOwner (p : UpdateRoomPayload) (hp : opCount p ≤ 1)
    (h5 : truthy p.transferOwnerTo = true) :
    truthy p.addParticipant = false ∧ truthy p.removeParticipant = false ∧
    truthy p.addAdmin = false ∧ truthy p.removeAdmin = false := by
  cases hb1 : truthy p.addParticipant <;>
    cases hb2 : truthy p.removeParticipant <;>
    cases hb3 : truthy p.addAdmin <;>
    cases hb4 : truthy p.removeAdmin <;>
    simp [opCount, hb1, hb2, hb3, hb4, h5] at hp ⊢

lemma updateRoom_preserves_inv (r : Room) (p : UpdateRoomPayload)
    (hr : roomInv r) (hp : opCount p ≤ 1) : roomInv (updateRoom r p) := by
  by_cases hauth : (decide (r.createdBy = p.byUserId) ||
      (match r.admins with
        | some l => decide (p.byUserId ∈ l)
        | none => false)) = true
  · have hred : updateRoom r p = roomTransferOwner p (roomRemoveAdmin p
        (roomAddAdmin p (roomRemoveParticipant p
          (roomAddParticipant p r)))) := by
      simp only [updateRoom]
      rw [hauth]
      rfl
    rw [hred]
    by_cases h5 : truthy p.transferOwnerTo = true
    · obtain ⟨h1, h2, h3, h4⟩ := onlyTransferOwner p hp h5
      have e1 : roomAddParticipant p r = r := by
        unfold roomAddParticipant
        rw [h1]
        rfl
      have e2 : roomRemoveParticipant p r = r := by
        unfold roomRemoveParticipant
        rw [h2]
        rfl
      have e3 : roomAddAdmin p r = r := by
        unfold roomAddAdmin
        rw [h3]
        rfl
      have e4 : roomRemoveAdmin p r = r := by
        unfold roomRemoveAdmin
        rw [h4]
        rfl
      rw [e1, e2, e3, e4]
      exact roomTransferOwner_inv p r (updateRoom_auth_mem r p hauth hr) hr
    · rw [Bool.not_eq_true] at h5
      have e5 : ∀ r2 : Room, roomTransferOwner p r2 = r2 := by
        intro r2
        unfold roomTransferOwner
        rw [h5]
        rfl
      rw [e5]
      exact roomRemoveAdmin_inv p _ (roomAddAdmin_inv p _
        (roomRemoveParticipant_inv p _ (roomAddParticipant_inv p r hr)))
  · rw [Bool.not_eq_true] at hauth
    have hred : updateRoom r p = r := by
      simp only [updateRoom]
      rw [hauth]
      rfl
    rw [hred]
    exact hr

/-- C3: starting from a room satisfying the invariants, for every
sequence of single-operation update_room requests (addParticipant,
removeParticipant, addAdmin, removeAdmin, transferOwnerTo) — each
authorization-checked by the handler itself — the owner is a participant
and every room admin is a participant after every prefix of the
sequence. -/
theorem C3_room_invariants_preserved (r : Room)
    (ps : List UpdateRoomPayload) (hr : roomInv r)
    (hps : ∀ p ∈ ps, opCount p ≤ 1) (n : Nat) :
    roomInv ((ps.take n).foldl updateRoom r) := by
  have aux : ∀ (qs : List UpdateRoomPayload) (r0 : Room), roomInv r0 →
      (∀ p ∈ qs, opCount p ≤ 1) → roomInv (qs.foldl updateRoom r0) := by
    intro qs
    induction qs with
    | nil => intro r0 h0 _; simpa using h0
    | cons q qs ih =>
      intro r0 h0 hqs
      rw [List.foldl_cons]
      exact ih _ (updateRoom_preserves_inv r0 q h0
          (hqs q (List.mem_cons_self q qs)))
        (fun p hp => hqs p (List.mem_cons_of_mem q hp))
  exact aux (ps.take n) r hr
    (fun p hp => hps p (List.take_subset n ps hp))

/-- Witness for C3: in `sampleRoom`, admin "a" grants admin to "b"; the
invariants hold before and after. -/
theorem C3_witness :
    roomInv sampleRoom ∧ (∀ p ∈ [sampleUpd], opCount p ≤ 1) ∧
    roomInv (([sampleUpd].take 1).foldl updateRoom sampleRoom) := by
  refine ⟨?_, ?_, ?_⟩
  · constructor
    · simp [sampleRoom]
    · intro a ha
      simp only [sampleRoom, Option.getD_some] at ha
      simp only [List.mem_singleton] at ha
      simp [sampleRoom, ha]
  · intro p hp
    simp only [List.mem_singleton] at hp
    subst hp
    simp [opCount, truthy, sampleUpd]
  · refine C3_room_invariants_preserved sampleRoom [sampleUpd] ?_ ?_ 1
    · constructor
      · simp [sampleRoom]
      · intro a ha
        simp only [sampleRoom, Option.getD_some] at ha
        simp only [List.mem_singleton] at ha
        simp [sampleRoom, ha]
    · intro p hp
      simp only [List.mem_singleton] at hp
      subst hp
      simp [opCount, truthy, sampleUpd]

end LANHub
